import Mathlib

/-!
# A fixed-size worker thread pool with a FIFO job queue (`threadpool.c`)

The C program is embedded call by call.  One `State` value holds what a call can
read or write: the linked nodes of the job queue on the C heap, the fields of
`thread_pool_t`, the set of mutexes the calling thread holds, and the list of the
observable library calls made so far (job functions invoked, broadcasts, threads
created and joined, blocks freed).

Conventions.
* A pointer to a queue node is `Option Nat`; `none` is `NULL`.  Addresses are
  natural numbers: the model puts no bound on the number of live nodes.
* `unsigned len` is a natural number below `UINT_MAX + 1`; `len++` wraps.
* The results of `malloc`, of the `pthread_*_init` calls and of `pthread_create`
  are inputs of the model.
* The mutexes are the default (non recursive) ones `pthread_mutex_init(m, NULL)`
  makes: locking a mutex the caller already holds never returns.
* The lifetime of a mutex is not part of the state: `pthread_mutex_lock` and
  `pthread_mutex_unlock` take their mutex to be initialised and not destroyed.
  The `destroy` calls of `thread_pool_destroy` are recorded as events; what a
  later call does with a destroyed mutex is outside the model, and so is every
  other failure of a `pthread` call that ends the process through `syserr`.
* One call of one thread is modelled at a time.  `State.held` belongs to the
  calling thread; a mutex it does not hold is free to be locked.
* A function of a job is an uninterpreted call, recorded as `Event.call`.
* The pool pointer is never `NULL`.
-/

namespace ThreadPool

/-- Largest value of the C type `unsigned` (32 bits). -/
def UINT_MAX : Nat := 4294967295

/-- Model of `runnable_t`: a function pointer, an argument pointer and its size. -/
structure runnable_t where
  function : Nat
  arg : Nat
  argsz : Nat
  deriving DecidableEq, Repr

/-- Pointer to a `job_queue_elem_t`; `none` is `NULL`. -/
abbrev Ptr := Option Nat

/-- Model of `job_queue_elem_t`. -/
structure job_queue_elem_t where
  job : runnable_t
  next : Ptr
  deriving DecidableEq, Repr

/-- The part of the C heap that holds queue nodes: address to node, `none` when
no node is allocated there. -/
abbrev Heap := Nat → Option job_queue_elem_t

/-- The three mutexes of the program. -/
inductive Mutex
  /-- Field `job_queue->mutex`. -/
  | queue_mutex
  /-- Field `pool->mutex`, the mutex of the condition variable. -/
  | mutex
  /-- Field `pool->pool_lock`, the admission mutex. -/
  | pool_lock
  deriving DecidableEq, Repr

/-- Model of `job_queue_t` without its mutex, which lives in `State.held`. -/
structure job_queue_t where
  front : Ptr
  back : Ptr
  len : Nat
  deriving DecidableEq, Repr

/-- Model of `thread_pool_t`.  `threads` is `none` for `NULL`, else the array,
slot `i` being `true` once `pthread_create` has stored a thread identity in it. -/
structure thread_pool_t where
  threads : Option (List Bool)
  pool_size : Nat
  job_queue : job_queue_t
  shutdown : Int
  deriving DecidableEq, Repr

/-- Observable library calls. -/
inductive Event
  /-- The call `(job->function)(job->arg, job->argsz)`. -/
  | call (job : runnable_t)
  /-- The call `pthread_cond_broadcast(&pool->notify)`. -/
  | broadcast
  /-- A successful `pthread_create(&pool->threads[i], ...)`. -/
  | create (i : Nat)
  /-- The call `pthread_join(pool->threads[i], NULL)`. -/
  | join (i : Nat)
  /-- The call `free(pool->threads)`. -/
  | free_threads
  /-- The call `free(pool)`. -/
  | free_pool
  /-- The call `free(job_queue)`. -/
  | free_queue
  /-- The call `pthread_mutex_destroy` on a mutex of the pool. -/
  | destroy (m : Mutex)
  /-- The call `pthread_cond_destroy(&pool->notify)`. -/
  | destroy_notify
  deriving DecidableEq, Repr

/-- Everything a call reads or writes. -/
structure State where
  heap : Heap
  pool : thread_pool_t
  /-- Mutexes held by the calling thread. -/
  held : List Mutex
  trace : List Event

/-- How a call ends. -/
inductive Outcome (α : Type) where
  /-- The call returns `v` in state `s`. -/
  | returned (v : α) (s : State)
  /-- The caller locks a mutex it already holds and never returns. -/
  | deadlock (s : State)
  /-- The call reaches undefined behaviour (a `NULL` or dangling node is read,
  a mutex that is not held is unlocked, a thread that was never created is
  joined). -/
  | undefined (s : State)
  /-- The worker is blocked in `pthread_cond_wait`, the mutex released. -/
  | waiting (s : State)
  /-- The loop did not finish within the given number of iterations. -/
  | timeout

/-- Replace the job queue embedded in the pool. -/
def set_queue (s : State) (q : job_queue_t) : State :=
  { s with pool := { s.pool with job_queue := q } }

/-- Append an event to the trace. -/
def emit (s : State) (e : Event) : State :=
  { s with trace := s.trace ++ [e] }

/-- Model of `pthread_mutex_lock`: `none` when the caller already holds `m`. -/
def pthread_mutex_lock (m : Mutex) (s : State) : Option State :=
  if m ∈ s.held then none else some { s with held := m :: s.held }

/-- Model of `pthread_mutex_unlock`: `none` when the caller does not hold `m`. -/
def pthread_mutex_unlock (m : Mutex) (s : State) : Option State :=
  if m ∈ s.held then some { s with held := s.held.erase m } else none

/-- Model of a successful `pthread_mutex_init`: the new mutex is unlocked. -/
def pthread_mutex_init (m : Mutex) (s : State) : State :=
  { s with held := s.held.filter (fun x => x ≠ m) }

/-- Model of `job_queue_init`; `mutex_ok` says whether `pthread_mutex_init`
succeeds.  When it fails the source calls `free(job_queue)`; the queue is the
field `job_queue` inside the pool, not a block of its own, so this `free` is
undefined behaviour and the `return -1` after it is not reached. -/
def job_queue_init (s : State) (mutex_ok : Bool) : Outcome Int :=
  let s1 := set_queue s { front := none, back := none, len := 0 }
  if mutex_ok then
    Outcome.returned 0 (pthread_mutex_init Mutex.queue_mutex s1)
  else
    Outcome.undefined (emit s1 Event.free_queue)

/-- Model of `job_queue_push`; `elem` is the address of the node to append. -/
def job_queue_push (s : State) (elem : Nat) : Outcome Unit :=
  match pthread_mutex_lock Mutex.queue_mutex s with
  | none => Outcome.deadlock s
  | some s1 =>
    let q := s1.pool.job_queue
    let linked : Option State :=
      if q.len = 0 then
        some (set_queue s1 { q with front := some elem, back := some elem })
      else
        match q.back with
        | none => none
        | some b =>
          match s1.heap b with
          | none => none
          | some e =>
            some (set_queue
              { s1 with heap := Function.update s1.heap b (some { e with next := some elem }) }
              { q with back := some elem })
    match linked with
    | none => Outcome.undefined s1
    | some s2 =>
      let s3 := set_queue s2
        { s2.pool.job_queue with len := (s2.pool.job_queue.len + 1) % (UINT_MAX + 1) }
      match pthread_mutex_unlock Mutex.queue_mutex s3 with
      | none => Outcome.undefined s3
      | some s4 => Outcome.returned () s4

/-- Model of `job_queue_get`; `malloc_ok` says whether the allocation of the
copy succeeds.  The result is `none` for `NULL`, else the copied job. -/
def job_queue_get (s : State) (malloc_ok : Bool) : Outcome (Option runnable_t) :=
  match pthread_mutex_lock Mutex.queue_mutex s with
  | none => Outcome.deadlock s
  | some s1 =>
    let q := s1.pool.job_queue
    if q.len = 0 then
      match pthread_mutex_unlock Mutex.queue_mutex s1 with
      | none => Outcome.undefined s1
      | some s2 => Outcome.returned none s2
    else if malloc_ok = false then
      match pthread_mutex_unlock Mutex.queue_mutex s1 with
      | none => Outcome.undefined s1
      | some s2 => Outcome.returned none s2
    else
      match q.front with
      | none => Outcome.undefined s1
      | some f =>
        match s1.heap f with
        | none => Outcome.undefined s1
        | some e =>
          let len1 := q.len - 1
          let q1 : job_queue_t :=
            if len1 = 0 then { front := none, back := none, len := len1 }
            else { q with front := e.next, len := len1 }
          let s2 := set_queue { s1 with heap := Function.update s1.heap f none } q1
          match pthread_mutex_unlock Mutex.queue_mutex s2 with
          | none => Outcome.undefined s2
          | some s3 => Outcome.returned (some e.job) s3

/-- The loop `while (job_queue->len > 0) free(job_queue_get(job_queue));` of
`job_queue_destroy`, run for at most `fuel` tests of its condition; `mallocs i`
is the result of the allocation in the `i`-th call of `job_queue_get`. -/
def job_queue_destroy_loop : Nat → State → (Nat → Bool) → Outcome Unit
  | 0, _, _ => Outcome.timeout
  | fuel + 1, s, mallocs =>
    if 0 < s.pool.job_queue.len then
      match job_queue_get s (mallocs 0) with
      | Outcome.returned _ s1 => job_queue_destroy_loop fuel s1 (fun i => mallocs (i + 1))
      | Outcome.deadlock s1 => Outcome.deadlock s1
      | Outcome.undefined s1 => Outcome.undefined s1
      | Outcome.waiting s1 => Outcome.waiting s1
      | Outcome.timeout => Outcome.timeout
    else
      Outcome.returned () s

/-- Model of `job_queue_destroy`. -/
def job_queue_destroy (fuel : Nat) (s : State) (mallocs : Nat → Bool) : Outcome Unit :=
  match pthread_mutex_lock Mutex.queue_mutex s with
  | none => Outcome.deadlock s
  | some s1 =>
    match job_queue_destroy_loop fuel s1 mallocs with
    | Outcome.returned _ s2 =>
      let s3 := set_queue s2 { front := none, back := none, len := 0 }
      match pthread_mutex_unlock Mutex.queue_mutex s3 with
      | none => Outcome.undefined s3
      | some s4 => Outcome.returned () s4
    | o => o

/-- One pass through the body of `while (1)` in `run`, for a worker holding the
locks `s.held`; `malloc_ok` is the result of the allocation in `job_queue_get`.
`Outcome.returned true` is the `break` (the mutex is still held),
`Outcome.returned false` is the end of the body, back to the top of the loop. -/
def run_body (s : State) (malloc_ok : Bool) : Outcome Bool :=
  match pthread_mutex_lock Mutex.mutex s with
  | none => Outcome.deadlock s
  | some s1 =>
    if s1.pool.job_queue.len = 0 ∧ s1.pool.shutdown = 0 then
      -- pthread_cond_wait releases the mutex and blocks
      match pthread_mutex_unlock Mutex.mutex s1 with
      | none => Outcome.undefined s1
      | some s2 => Outcome.waiting s2
    else if s1.pool.shutdown = 1 ∧ s1.pool.job_queue.len = 0 then
      Outcome.returned true s1
    else
      match job_queue_get s1 malloc_ok with
      | Outcome.returned job s2 =>
        match pthread_mutex_unlock Mutex.mutex s2 with
        | none => Outcome.undefined s2
        | some s3 =>
          match job with
          | some j => Outcome.returned false (emit s3 (Event.call j))
          | none => Outcome.returned false s3
      | Outcome.deadlock s2 => Outcome.deadlock s2
      | Outcome.undefined s2 => Outcome.undefined s2
      | Outcome.waiting s2 => Outcome.waiting s2
      | Outcome.timeout => Outcome.timeout

/-- Model of `run`, the worker, for at most `fuel` passes through its loop, with
no other thread running: a worker that reaches `pthread_cond_wait` stays there. -/
def run : Nat → State → (Nat → Bool) → Outcome Unit
  | 0, _, _ => Outcome.timeout
  | fuel + 1, s, mallocs =>
    match run_body s (mallocs 0) with
    | Outcome.returned true s1 =>
      match pthread_mutex_unlock Mutex.mutex s1 with
      | none => Outcome.undefined s1
      | some s2 => Outcome.returned () s2
    | Outcome.returned false s1 => run fuel s1 (fun i => mallocs (i + 1))
    | Outcome.deadlock s1 => Outcome.deadlock s1
    | Outcome.undefined s1 => Outcome.undefined s1
    | Outcome.waiting s1 => Outcome.waiting s1
    | Outcome.timeout => Outcome.timeout

/-- The loop `for (i = 0; i < pool_size; i++) pthread_join(threads[i], NULL)` of
`thread_pool_destroy`, from index `i` with `n` indices left.  Joining a worker
that was created returns once that worker has left `run`: the worker, which
holds no mutex of its own, is run to its end at this point, with `fuel` passes
and the allocation results `mallocs`.  Joining a slot in which no thread
identity was ever stored is undefined behaviour. -/
def join_loop (fuel : Nat) (mallocs : Nat → Bool) : Nat → Nat → State → Outcome Unit
  | 0, _, s => Outcome.returned () s
  | n + 1, i, s =>
    match s.pool.threads with
    | none => Outcome.undefined s
    | some arr =>
      let s1 := emit s (Event.join i)
      if arr.getD i false = true then
        match run fuel { s1 with held := [] } mallocs with
        | Outcome.returned _ s2 => join_loop fuel mallocs n (i + 1) { s2 with held := s1.held }
        | o => o
      else Outcome.undefined s1

/-- Model of `thread_pool_destroy` for a pool that is not `NULL`; `fuel` and
`mallocs` bound and feed the loops of the joined workers and of
`job_queue_destroy`.  The three `destroy` calls that end the function are
recorded in the trace. -/
def thread_pool_destroy (fuel : Nat) (s : State) (mallocs : Nat → Bool) : Outcome Unit :=
  match pthread_mutex_lock Mutex.pool_lock s with
  | none => Outcome.deadlock s
  | some s1 =>
    let s2 := emit { s1 with pool := { s1.pool with shutdown := 1 } } Event.broadcast
    match join_loop fuel mallocs s2.pool.pool_size 0 s2 with
    | Outcome.returned _ s3 =>
      match job_queue_destroy fuel s3 mallocs with
      | Outcome.returned _ s4 =>
        let s5 := emit s4 Event.free_threads
        match pthread_mutex_unlock Mutex.pool_lock s5 with
        | none => Outcome.undefined s5
        | some s6 =>
          Outcome.returned ()
            (emit (emit (emit s6 (Event.destroy Mutex.pool_lock)) Event.destroy_notify)
              (Event.destroy Mutex.mutex))
      | o => o
    | o => o

/-- What the environment answers during `thread_pool_init`. -/
structure InitEnv where
  /-- Result of `pthread_mutex_init(&job_queue->mutex, NULL)`. -/
  queue_mutex_ok : Bool
  /-- Result of `malloc(sizeof(pthread_t) * pool_size)`. -/
  threads_ok : Bool
  /-- Result of `pthread_mutex_init(&pool->mutex, NULL)`. -/
  mutex_ok : Bool
  /-- Result of `pthread_cond_init(&pool->notify, NULL)`. -/
  notify_ok : Bool
  /-- Result of `pthread_mutex_init(&pool->pool_lock, NULL)`. -/
  pool_lock_ok : Bool
  /-- Result of `pthread_create(&pool->threads[i], NULL, run, pool)`. -/
  create_ok : Nat → Bool
  /-- Iterations allowed to each loop run during the unwinding. -/
  fuel : Nat
  /-- Results of the allocations made by `job_queue_get` during the unwinding. -/
  mallocs : Nat → Bool

/-- The loop `for (i = 0; i < pool_size; i++) pthread_create(...)` of
`thread_pool_init`, from index `i` with `n` indices left. -/
def create_loop (env : InitEnv) : Nat → Nat → State → Outcome Int
  | 0, _, s => Outcome.returned 0 s
  | n + 1, i, s =>
    if env.create_ok i = true then
      let arr := (s.pool.threads.getD []).set i true
      create_loop env n (i + 1)
        (emit { s with pool := { s.pool with threads := some arr } } (Event.create i))
    else
      match thread_pool_destroy env.fuel s env.mallocs with
      | Outcome.returned _ s1 => Outcome.returned (-1) s1
      | Outcome.deadlock s1 => Outcome.deadlock s1
      | Outcome.undefined s1 => Outcome.undefined s1
      | Outcome.waiting s1 => Outcome.waiting s1
      | Outcome.timeout => Outcome.timeout

/-- The error exits of `thread_pool_init` that call `job_queue_destroy` and then
free the blocks listed in `frees`. -/
def init_unwind (env : InitEnv) (s : State) (frees : List Event) : Outcome Int :=
  match job_queue_destroy env.fuel s env.mallocs with
  | Outcome.returned _ s1 => Outcome.returned (-1) { s1 with trace := s1.trace ++ frees }
  | Outcome.deadlock s1 => Outcome.deadlock s1
  | Outcome.undefined s1 => Outcome.undefined s1
  | Outcome.waiting s1 => Outcome.waiting s1
  | Outcome.timeout => Outcome.timeout

/-- Model of `thread_pool_init` for a pool that is not `NULL`. -/
def thread_pool_init (s : State) (pool_size : Nat) (env : InitEnv) : Outcome Int :=
  let s1 := { s with pool := { s.pool with pool_size := pool_size, shutdown := 0 } }
  match job_queue_init s1 env.queue_mutex_ok with
  | Outcome.returned v s2 =>
    if v = -1 then Outcome.returned (-1) (emit s2 Event.free_pool)
    else if env.threads_ok = false then
      init_unwind env { s2 with pool := { s2.pool with threads := none } } [Event.free_pool]
    else
      let s3 := { s2 with pool := { s2.pool with threads := some (List.replicate pool_size false) } }
      if env.mutex_ok = false then
        init_unwind env s3 [Event.free_threads, Event.free_pool]
      else if env.notify_ok = false then
        init_unwind env (pthread_mutex_init Mutex.mutex s3) [Event.free_threads, Event.free_pool]
      else if env.pool_lock_ok = false then
        init_unwind env (pthread_mutex_init Mutex.mutex s3) [Event.free_threads, Event.free_pool]
      else
        create_loop env pool_size 0
          (pthread_mutex_init Mutex.pool_lock (pthread_mutex_init Mutex.mutex s3))
  | Outcome.deadlock s2 => Outcome.deadlock s2
  | Outcome.undefined s2 => Outcome.undefined s2
  | Outcome.waiting s2 => Outcome.waiting s2
  | Outcome.timeout => Outcome.timeout

/-- Model of `defer` for a pool that is not `NULL`; `malloc` is the result of
`malloc(sizeof(job_queue_elem_t))`, `none` for `NULL`. -/
def defer (s : State) (runnable : runnable_t) (malloc : Ptr) : Outcome Int :=
  match pthread_mutex_lock Mutex.pool_lock s with
  | none => Outcome.deadlock s
  | some s1 =>
    if s1.pool.threads = none ∨ s1.pool.shutdown = 1 then
      match pthread_mutex_unlock Mutex.pool_lock s1 with
      | none => Outcome.undefined s1
      | some s2 => Outcome.returned (-1) s2
    else
      match malloc with
      | none =>
        -- the source calls pthread_mutex_lock here, not pthread_mutex_unlock
        match pthread_mutex_lock Mutex.pool_lock s1 with
        | none => Outcome.deadlock s1
        | some s2 => Outcome.returned (-1) s2
      | some elem =>
        let s2 := { s1 with heap := Function.update s1.heap elem (some { job := runnable, next := none }) }
        match job_queue_push s2 elem with
        | Outcome.returned _ s3 =>
          match pthread_mutex_unlock Mutex.pool_lock s3 with
          | none => Outcome.undefined s3
          | some s4 => Outcome.returned 0 (emit s4 Event.broadcast)
        | Outcome.deadlock s3 => Outcome.deadlock s3
        | Outcome.undefined s3 => Outcome.undefined s3
        | Outcome.waiting s3 => Outcome.waiting s3
        | Outcome.timeout => Outcome.timeout

/-! ## What a state of the queue means -/

/-- The nodes reached from pointer `p` by following `next` are exactly `cells`
(address and job of each node, in order) and the last `next` is `NULL`. -/
def Chain (h : Heap) : Ptr → List (Nat × runnable_t) → Prop
  | p, [] => p = none
  | p, c :: cs =>
    p = some c.1 ∧ (h c.1).map job_queue_elem_t.job = some c.2 ∧
      Chain h ((h c.1).bind job_queue_elem_t.next) cs

instance Chain.decide (h : Heap) : (p : Ptr) → (cells : List (Nat × runnable_t)) →
    Decidable (Chain h p cells)
  | p, [] => inferInstanceAs (Decidable (p = none))
  | p, c :: cs =>
    have := Chain.decide h ((h c.1).bind job_queue_elem_t.next) cs
    inferInstanceAs (Decidable (p = some c.1 ∧ (h c.1).map job_queue_elem_t.job = some c.2 ∧
      Chain h ((h c.1).bind job_queue_elem_t.next) cs))

/-- The queue of state `s` holds exactly the nodes `cells`: they are the chain
from `front`, `len` is their number and `back` is the last of them (`NULL` when
there is none). -/
def queue_ok (s : State) (cells : List (Nat × runnable_t)) : Prop :=
  Chain s.heap s.pool.job_queue.front cells ∧
  s.pool.job_queue.len = cells.length ∧
  s.pool.job_queue.back = cells.getLast?.map Prod.fst

instance queue_ok.decide (s : State) (cells : List (Nat × runnable_t)) :
    Decidable (queue_ok s cells) :=
  inferInstanceAs (Decidable (_ ∧ _ ∧ _))

/-! ## Drivers and sample states -/

/-- The state `s2` differs from `s` at most in the heap and in the queue. -/
def same_rest (s s2 : State) : Prop :=
  s2.held = s.held ∧ s2.trace = s.trace ∧ s2.pool.threads = s.pool.threads ∧
  s2.pool.pool_size = s.pool.pool_size ∧ s2.pool.shutdown = s.pool.shutdown

/-- The two steps with which `defer` queues a job: the node at address `a`
(the result of `malloc`) receives `job` and a `NULL` `next`, and is pushed. -/
def enqueue (s : State) (a : Nat) (job : runnable_t) : Outcome Unit :=
  job_queue_push
    { s with heap := Function.update s.heap a (some { job := job, next := none }) } a

/-- Queue the jobs of `cells` one after the other, each in the node whose
address comes with it. -/
def push_all : State → List (Nat × runnable_t) → Outcome Unit
  | s, [] => Outcome.returned () s
  | s, c :: cs =>
    match enqueue s c.1 c.2 with
    | Outcome.returned _ s1 => push_all s1 cs
    | o => o

/-- Call `job_queue_get` `n` times, every allocation succeeding, and collect
the results in order. -/
def get_all : Nat → State → Outcome (List (Option runnable_t))
  | 0, s => Outcome.returned [] s
  | n + 1, s =>
    match job_queue_get s true with
    | Outcome.returned v s1 =>
      match get_all n s1 with
      | Outcome.returned vs s2 => Outcome.returned (v :: vs) s2
      | o => o
    | Outcome.deadlock s1 => Outcome.deadlock s1
    | Outcome.undefined s1 => Outcome.undefined s1
    | Outcome.waiting s1 => Outcome.waiting s1
    | Outcome.timeout => Outcome.timeout

/-- A state with no node on the heap, an empty queue, no worker array, no mutex
held and nothing observed yet. -/
def start : State :=
  { heap := fun _ => none,
    pool := { threads := none, pool_size := 0,
              job_queue := { front := none, back := none, len := 0 }, shutdown := 0 },
    held := [], trace := [] }

/-- Some job. -/
def job0 : runnable_t := { function := 0, arg := 0, argsz := 0 }

/-- The job `job0` in each of the nodes at addresses `0`, ..., `n - 1`. -/
@[irreducible] def many (n : Nat) : List (Nat × runnable_t) :=
  (List.range n).map (fun a => (a, job0))


/-- A job whose three fields differ. -/
def job1 : runnable_t := { function := 7, arg := 8, argsz := 9 }

/-- A running pool of one worker with an empty queue. -/
def ready : State :=
  { heap := fun _ => none,
    pool := { threads := some [true], pool_size := 1,
              job_queue := { front := none, back := none, len := 0 }, shutdown := 0 },
    held := [], trace := [] }

/-- A running pool of one worker whose queue holds `job1` in the node at address 0. -/
def one_job : State :=
  { heap := fun a => if a = 0 then some { job := job1, next := none } else none,
    pool := { threads := some [true], pool_size := 1,
              job_queue := { front := some 0, back := some 0, len := 1 }, shutdown := 0 },
    held := [], trace := [] }

/-- A running pool whose queue holds `UINT_MAX` nodes, at the addresses
`0`, ..., `UINT_MAX - 1` in this order, each with the job `job0`. -/
def full : State :=
  { heap := fun a =>
      if a < UINT_MAX then
        some { job := job0, next := if a + 1 < UINT_MAX then some (a + 1) else none }
      else none,
    pool := { threads := some [true], pool_size := 1,
              job_queue := { front := some 0, back := some (UINT_MAX - 1), len := UINT_MAX },
              shutdown := 0 },
    held := [], trace := [] }

/-- The environment in which every step of `thread_pool_init` succeeds except
`pthread_create` for the worker of index `k` and later ones. -/
def env_fail_at (k : Nat) : InitEnv :=
  { queue_mutex_ok := true, threads_ok := true, mutex_ok := true, notify_ok := true,
    pool_lock_ok := true, create_ok := fun i => decide (i < k), fuel := 4,
    mallocs := fun _ => true }

/-- States of the queue reached from `job_queue_init` by calls of the three
queue operations that return.  A push is made the way `defer` makes it: the node
is a block `malloc` has just returned, filled with the job and a `NULL` `next`.
With `wrap = false` no push is made while `len` is `UINT_MAX`. -/
inductive Reachable (wrap : Bool) : State → Prop
  | init (s0 s : State) :
      job_queue_init s0 true = Outcome.returned 0 s → Reachable wrap s
  | push (s s2 : State) (a : Nat) (job : runnable_t) :
      Reachable wrap s → s.heap a = none →
      (wrap = true ∨ s.pool.job_queue.len < UINT_MAX) →
      enqueue s a job = Outcome.returned () s2 → Reachable wrap s2
  | get (s s2 : State) (ok : Bool) (v : Option runnable_t) :
      Reachable wrap s → job_queue_get s ok = Outcome.returned v s2 → Reachable wrap s2
  | destroy (s s2 : State) (fuel : Nat) (mallocs : Nat → Bool) :
      Reachable wrap s → job_queue_destroy fuel s mallocs = Outcome.returned () s2 →
      Reachable wrap s2

/-- The state after `job1` is queued, in the node at address 0, on the fresh
queue of `start`. -/
def pushed_once : State :=
  { heap := Function.update start.heap 0 (some { job := job1, next := none }),
    pool := { threads := none, pool_size := 0,
              job_queue := { front := some 0, back := some 0, len := 1 }, shutdown := 0 },
    held := [], trace := [] }

/-- The environment in which every step of `thread_pool_init` succeeds. -/
def env_ok : InitEnv :=
  { queue_mutex_ok := true, threads_ok := true, mutex_ok := true, notify_ok := true,
    pool_lock_ok := true, create_ok := fun _ => true, fuel := 4, mallocs := fun _ => true }

/-! ## Lemmas on chains of nodes -/

theorem chain_head (h : Heap) (p : Ptr) (c : Nat × runnable_t)
    (cs : List (Nat × runnable_t)) (hc : Chain h p (c :: cs)) : p = some c.1 := hc.1

theorem chain_frame (h h2 : Heap) :
    ∀ (cells : List (Nat × runnable_t)) (p : Ptr),
      (∀ c ∈ cells, h2 c.1 = h c.1) → Chain h p cells → Chain h2 p cells := by
  intro cells
  induction cells with
  | nil => intro p _ hc; exact hc
  | cons c cs ih =>
    intro p hsame hc
    have hc1 : h2 c.1 = h c.1 := hsame c (List.mem_cons_self _ _)
    obtain ⟨hp, hj, hrest⟩ := hc
    refine ⟨hp, ?_, ?_⟩
    · rw [hc1]; exact hj
    · rw [hc1]
      exact ih _ (fun d hd => hsame d (List.mem_cons_of_mem _ hd)) hrest

theorem chain_unique (h : Heap) :
    ∀ (l1 l2 : List (Nat × runnable_t)) (p : Ptr), Chain h p l1 → Chain h p l2 → l1 = l2 := by
  intro l1
  induction l1 with
  | nil =>
    intro l2 p h1 h2
    cases l2 with
    | nil => rfl
    | cons d ds =>
      have h1p : p = none := h1
      have h2p : p = some d.1 := h2.1
      rw [h1p] at h2p
      cases h2p
  | cons c cs ih =>
    intro l2 p h1 h2
    cases l2 with
    | nil =>
      have h2p : p = none := h2
      have h1p : p = some c.1 := h1.1
      rw [h2p] at h1p
      cases h1p
    | cons d ds =>
      obtain ⟨hp1, hj1, hr1⟩ := h1
      obtain ⟨hp2, hj2, hr2⟩ := h2
      have hcd : c.1 = d.1 := by
        rw [hp1] at hp2
        exact Option.some.inj hp2
      have hjj : c.2 = d.2 := by
        rw [hcd, hj2] at hj1
        exact (Option.some.inj hj1).symm
      have hcd2 : c = d := Prod.ext hcd hjj
      subst hcd2
      rw [ih ds _ hr1 hr2]

theorem chain_suffix (h : Heap) :
    ∀ (l1 : List (Nat × runnable_t)) (c : Nat × runnable_t) (l2 : List (Nat × runnable_t))
      (p : Ptr), Chain h p (l1 ++ c :: l2) → Chain h (some c.1) (c :: l2) := by
  intro l1
  induction l1 with
  | nil =>
    intro c l2 p hc
    obtain ⟨_, hj, hr⟩ := hc
    exact ⟨rfl, hj, hr⟩
  | cons d ds ih =>
    intro c l2 p hc
    exact ih c l2 _ hc.2.2

theorem chain_nodup (h : Heap) :
    ∀ (cells : List (Nat × runnable_t)) (p : Ptr),
      Chain h p cells → (cells.map Prod.fst).Nodup := by
  intro cells
  induction cells with
  | nil => intro p _; exact List.nodup_nil
  | cons c cs ih =>
    intro p hc
    have hrest := hc.2.2
    rw [List.map_cons, List.nodup_cons]
    refine ⟨?_, ih _ hrest⟩
    intro hmem
    obtain ⟨d, hd, hd1⟩ := List.mem_map.mp hmem
    obtain ⟨l1, l2, hsplit⟩ := List.append_of_mem hd
    rw [hsplit] at hrest
    have hsuf := chain_suffix h l1 d l2 _ hrest
    rw [hd1] at hsuf
    have hfull : Chain h (some c.1) (c :: cs) := ⟨rfl, hc.2.1, hc.2.2⟩
    have heq := chain_unique h _ _ _ hsuf hfull
    have hlen := congrArg List.length heq
    rw [hsplit] at hlen
    simp at hlen
    omega

theorem chain_mem_some (h : Heap) :
    ∀ (cells : List (Nat × runnable_t)) (p : Ptr), Chain h p cells →
      ∀ c ∈ cells, h c.1 ≠ none := by
  intro cells
  induction cells with
  | nil => intro p _ c hc; cases hc
  | cons d ds ih =>
    intro p hch c hc
    rcases List.mem_cons.mp hc with rfl | hmem
    · intro hnone
      have := hch.2.1
      rw [hnone] at this
      cases this
    · exact ih _ hch.2.2 c hmem

theorem lock_free (m : Mutex) (s : State) (hm : m ∉ s.held) :
    pthread_mutex_lock m s = some { s with held := m :: s.held } := by
  unfold pthread_mutex_lock
  rw [if_neg hm]

theorem unlock_head (m : Mutex) (s : State) (rest : List Mutex) (hm : s.held = m :: rest) :
    pthread_mutex_unlock m s = some { s with held := rest } := by
  unfold pthread_mutex_unlock
  rw [hm, if_pos (List.mem_cons_self _ _), List.erase_cons_head]

theorem chain_snoc (h : Heap) (a : Nat) (j : runnable_t) (b : Nat) (jb : runnable_t)
    (e : job_queue_elem_t) (hb : h b = some e) (ha : h a = some ⟨j, none⟩) (hab : a ≠ b) :
    ∀ (pre : List (Nat × runnable_t)) (p : Ptr),
      Chain h p (pre ++ [(b, jb)]) → a ∉ pre.map Prod.fst → b ∉ pre.map Prod.fst →
      Chain (Function.update h b (some { e with next := some a })) p
        (pre ++ [(b, jb)] ++ [(a, j)]) := by
  intro pre
  induction pre with
  | nil =>
    intro p hc _ _
    obtain ⟨hp, hj, _⟩ := hc
    rw [hb] at hj
    refine ⟨hp, ?_, ?_⟩
    · simpa using hj
    · simp only [Function.update_same, Option.bind]
      refine ⟨rfl, ?_, ?_⟩
      · simp [Function.update_noteq hab, ha]
      · simp [Function.update_noteq hab, ha, Chain]
  | cons c cs ih =>
    intro p hc hac hbc
    obtain ⟨hp, hj, hr⟩ := hc
    have hcb : c.1 ≠ b := by
      intro hEq; apply hbc; simp [hEq]
    have hac2 : a ∉ cs.map Prod.fst := by
      intro hm; apply hac; simp only [List.map_cons, List.mem_cons]; exact Or.inr hm
    have hbc2 : b ∉ cs.map Prod.fst := by
      intro hm; apply hbc; simp only [List.map_cons, List.mem_cons]; exact Or.inr hm
    refine ⟨hp, ?_, ?_⟩
    · rw [Function.update_noteq hcb]; exact hj
    · rw [Function.update_noteq hcb]
      exact ih _ hr hac2 hbc2

theorem job_queue_get_empty (s : State) (ok : Bool) (hlen : s.pool.job_queue.len = 0)
    (hm : Mutex.queue_mutex ∉ s.held) :
    job_queue_get s ok = Outcome.returned none s := by
  unfold job_queue_get
  rw [lock_free _ _ hm]
  simp only [hlen, if_true]
  rw [unlock_head Mutex.queue_mutex _ s.held rfl]

theorem job_queue_get_nomem (s : State) (hm : Mutex.queue_mutex ∉ s.held) :
    job_queue_get s false = Outcome.returned none s := by
  unfold job_queue_get
  rw [lock_free _ _ hm]
  by_cases hlen : s.pool.job_queue.len = 0
  · simp only [hlen, if_true]
    rw [unlock_head Mutex.queue_mutex _ s.held rfl]
  · simp only [hlen, if_false, if_true]
    rw [unlock_head Mutex.queue_mutex _ s.held rfl]

theorem job_queue_get_cons (s : State) (a : Nat) (j : runnable_t)
    (cells : List (Nat × runnable_t)) (hq : queue_ok s ((a, j) :: cells))
    (hm : Mutex.queue_mutex ∉ s.held) :
    ∃ s2, job_queue_get s true = Outcome.returned (some j) s2 ∧ queue_ok s2 cells ∧
      same_rest s s2 ∧ s2.heap = Function.update s.heap a none := by
  obtain ⟨hch, hlen, hback⟩ := hq
  have hnd := chain_nodup _ _ _ hch
  obtain ⟨hfront, hjob, hrest⟩ := hch
  simp only at hfront hjob hrest
  cases hh : s.heap a with
  | none => rw [hh] at hjob; cases hjob
  | some e =>
    rw [hh] at hjob hrest
    have hej : e.job = j := by simpa using hjob
    subst hej
    simp only [Option.bind] at hrest
    have hna : a ∉ cells.map Prod.fst := (List.nodup_cons.mp hnd).1
    have hframe : Chain (Function.update s.heap a none) e.next cells := by
      apply chain_frame s.heap _ cells _ _ hrest
      intro c hc
      apply Function.update_noteq
      intro hEq
      apply hna
      exact List.mem_map.mpr ⟨c, hc, hEq⟩
    unfold job_queue_get
    rw [lock_free _ _ hm]
    have hlen2 : s.pool.job_queue.len = cells.length + 1 := by simpa using hlen
    simp only [hlen2, Nat.succ_ne_zero, if_false, hfront, hh, Nat.add_sub_cancel]
    simp only [Bool.true_eq_false, if_false]
    cases cells with
    | nil =>
      simp only [List.length_nil, if_true]
      rw [unlock_head Mutex.queue_mutex _ s.held rfl]
      refine ⟨_, rfl, ?_, ?_, rfl⟩
      · refine ⟨?_, rfl, rfl⟩
        simp [set_queue, Chain]
      · simp [same_rest, set_queue]
    | cons c cs =>
      simp only [List.length_cons, Nat.succ_ne_zero, if_false]
      rw [unlock_head Mutex.queue_mutex _ s.held rfl]
      refine ⟨_, rfl, ?_, ?_, rfl⟩
      · refine ⟨hframe, rfl, ?_⟩
        simp only [set_queue]
        rw [hback]
        simp [List.getLast?_cons_cons]
      · simp [same_rest, set_queue]

theorem job_queue_push_spec (s : State) (cells : List (Nat × runnable_t)) (a : Nat)
    (j : runnable_t) (hq : queue_ok s cells) (hnode : s.heap a = some ⟨j, none⟩)
    (hfresh : a ∉ cells.map Prod.fst) (hm : Mutex.queue_mutex ∉ s.held) :
    ∃ s2, job_queue_push s a = Outcome.returned () s2 ∧
      Chain s2.heap s2.pool.job_queue.front (cells ++ [(a, j)]) ∧
      s2.pool.job_queue.back = some a ∧
      s2.pool.job_queue.len = (cells.length + 1) % (UINT_MAX + 1) ∧
      same_rest s s2 ∧ (∀ x, x ∉ cells.map Prod.fst → s2.heap x = s.heap x) := by
  obtain ⟨hch, hlen, hback⟩ := hq
  rcases List.eq_nil_or_concat cells with hnil | ⟨pre, c, hcat⟩
  · subst hnil
    unfold job_queue_push
    rw [lock_free _ _ hm]
    have hlen0 : s.pool.job_queue.len = 0 := by simpa using hlen
    simp only [hlen0, if_true, set_queue]
    rw [unlock_head Mutex.queue_mutex _ s.held rfl]
    refine ⟨_, rfl, ?_, rfl, ?_, ?_, ?_⟩
    · simp [Chain, hnode]
    · simp
    · simp [same_rest]
    · intro x _; rfl
  · rw [List.concat_eq_append] at hcat
    subst hcat
    obtain ⟨b, jb⟩ := c
    have hnd := chain_nodup _ _ _ hch
    have hlen1 : s.pool.job_queue.len = pre.length + 1 := by simpa using hlen
    have hback1 : s.pool.job_queue.back = some b := by simpa using hback
    have hsome := chain_mem_some _ _ _ hch (b, jb) (by simp)
    cases hc : s.heap b with
    | none => exact absurd hc hsome
    | some e =>
      have hac : a ≠ b := by
        intro hEq; apply hfresh; simp [hEq]
      have hapre : a ∉ pre.map Prod.fst := by
        intro hmem; apply hfresh; simp only [List.map_append, List.mem_append]; exact Or.inl hmem
      have hcpre : b ∉ pre.map Prod.fst := by
        rw [List.map_append, List.nodup_append] at hnd
        intro hmem
        exact hnd.2.2 hmem (by simp)
      have hsnoc := chain_snoc s.heap a j b jb e hc hnode hac pre _ hch hapre hcpre
      unfold job_queue_push
      rw [lock_free _ _ hm]
      simp only [hlen1, Nat.succ_ne_zero, if_false, hback1, hc, set_queue]
      rw [unlock_head Mutex.queue_mutex _ s.held rfl]
      refine ⟨_, rfl, hsnoc, rfl, ?_, ?_, ?_⟩
      · simp
      · simp [same_rest]
      · intro x hx
        apply Function.update_noteq
        intro hEq
        apply hx
        simp [hEq]

theorem enqueue_spec (s : State) (cells : List (Nat × runnable_t)) (a : Nat)
    (j : runnable_t) (hq : queue_ok s cells) (hfresh : a ∉ cells.map Prod.fst)
    (hm : Mutex.queue_mutex ∉ s.held) :
    ∃ s2, enqueue s a j = Outcome.returned () s2 ∧
      Chain s2.heap s2.pool.job_queue.front (cells ++ [(a, j)]) ∧
      s2.pool.job_queue.back = some a ∧
      s2.pool.job_queue.len = (cells.length + 1) % (UINT_MAX + 1) ∧
      same_rest s s2 ∧
      (∀ x, x ∉ cells.map Prod.fst → x ≠ a → s2.heap x = s.heap x) := by
  have hq1 : queue_ok
      { s with heap := Function.update s.heap a (some { job := j, next := none }) } cells := by
    obtain ⟨hch, hlen, hback⟩ := hq
    refine ⟨?_, hlen, hback⟩
    apply chain_frame s.heap _ cells _ _ hch
    intro c hc
    apply Function.update_noteq
    intro hEq
    apply hfresh
    exact List.mem_map.mpr ⟨c, hc, hEq⟩
  obtain ⟨s2, hpush, hch2, hb2, hl2, hsame, hheap⟩ :=
    job_queue_push_spec _ cells a j hq1 (by simp) hfresh hm
  refine ⟨s2, hpush, hch2, hb2, hl2, hsame, ?_⟩
  intro x hx hxa
  rw [hheap x hx]
  exact Function.update_noteq hxa _ _

theorem enqueue_ok (s : State) (cells : List (Nat × runnable_t)) (a : Nat)
    (j : runnable_t) (hq : queue_ok s cells) (hfresh : a ∉ cells.map Prod.fst)
    (hm : Mutex.queue_mutex ∉ s.held) (hlen : cells.length < UINT_MAX) :
    ∃ s2, enqueue s a j = Outcome.returned () s2 ∧ queue_ok s2 (cells ++ [(a, j)]) ∧
      same_rest s s2 ∧
      (∀ x, x ∉ cells.map Prod.fst → x ≠ a → s2.heap x = s.heap x) := by
  obtain ⟨s2, hpush, hch2, hb2, hl2, hsame, hheap⟩ := enqueue_spec s cells a j hq hfresh hm
  refine ⟨s2, hpush, ⟨hch2, ?_, ?_⟩, hsame, hheap⟩
  · rw [hl2, List.length_append, List.length_singleton]
    exact Nat.mod_eq_of_lt (by omega)
  · rw [hb2]; simp

theorem same_rest_refl (s : State) : same_rest s s := ⟨rfl, rfl, rfl, rfl, rfl⟩

theorem same_rest_trans (s1 s2 s3 : State) (h12 : same_rest s1 s2) (h23 : same_rest s2 s3) :
    same_rest s1 s3 := by
  obtain ⟨a1, a2, a3, a4, a5⟩ := h12
  obtain ⟨b1, b2, b3, b4, b5⟩ := h23
  exact ⟨b1.trans a1, b2.trans a2, b3.trans a3, b4.trans a4, b5.trans a5⟩

theorem push_all_append (l1 l2 : List (Nat × runnable_t)) :
    ∀ (s s1 : State), push_all s l1 = Outcome.returned () s1 →
      push_all s (l1 ++ l2) = push_all s1 l2 := by
  induction l1 with
  | nil =>
    intro s s1 h
    simp only [push_all, Outcome.returned.injEq, true_and] at h
    subst h
    rfl
  | cons c cs ih =>
    intro s s1 h
    simp only [push_all, List.cons_append] at h ⊢
    cases he : enqueue s c.1 c.2 with
    | returned v s2 =>
      rw [he] at h
      simp only at h ⊢
      exact ih s2 s1 h
    | deadlock s2 => rw [he] at h; cases h
    | undefined s2 => rw [he] at h; cases h
    | waiting s2 => rw [he] at h; cases h
    | timeout => rw [he] at h; cases h

theorem push_all_ok (new : List (Nat × runnable_t)) :
    ∀ (cells : List (Nat × runnable_t)) (s : State), queue_ok s cells →
      Mutex.queue_mutex ∉ s.held → ((cells ++ new).map Prod.fst).Nodup →
      cells.length + new.length ≤ UINT_MAX →
      ∃ s2, push_all s new = Outcome.returned () s2 ∧ queue_ok s2 (cells ++ new) ∧
        same_rest s s2 ∧
        (∀ x, x ∉ (cells ++ new).map Prod.fst → s2.heap x = s.heap x) := by
  induction new with
  | nil =>
    intro cells s hq _ _ _
    refine ⟨s, rfl, ?_, same_rest_refl s, fun _ _ => rfl⟩
    rw [List.append_nil]; exact hq
  | cons c cs ih =>
    intro cells s hq hm hnd hlen
    have hfresh : c.1 ∉ cells.map Prod.fst := by
      rw [List.map_append, List.nodup_append] at hnd
      intro hmem
      exact hnd.2.2 hmem (by simp)
    have hlt : cells.length < UINT_MAX := by
      simp only [List.length_cons] at hlen; omega
    obtain ⟨s1, he, hq1, hsame1, hheap1⟩ := enqueue_ok s cells c.1 c.2 hq hfresh hm hlt
    have hm1 : Mutex.queue_mutex ∉ s1.held := by rw [hsame1.1]; exact hm
    have hnd1 : (((cells ++ [(c.1, c.2)]) ++ cs).map Prod.fst).Nodup := by
      simpa using hnd
    have hlen1 : (cells ++ [(c.1, c.2)]).length + cs.length ≤ UINT_MAX := by
      simp only [List.length_append, List.length_cons, List.length_nil] at hlen ⊢; omega
    obtain ⟨s2, hp, hq2, hsame2, hheap2⟩ := ih (cells ++ [(c.1, c.2)]) s1 hq1 hm1 hnd1 hlen1
    refine ⟨s2, ?_, ?_, same_rest_trans _ _ _ hsame1 hsame2, ?_⟩
    · simp only [push_all, he]; exact hp
    · simpa using hq2
    · intro x hx
      have hx2 : x ∉ ((cells ++ [(c.1, c.2)]) ++ cs).map Prod.fst := by simpa using hx
      rw [hheap2 x hx2]
      apply hheap1
      · intro hmem; apply hx; simp only [List.map_append, List.mem_append]; exact Or.inl hmem
      · intro hEq; apply hx; simp [hEq]

theorem get_all_ok (cells : List (Nat × runnable_t)) :
    ∀ (s : State), queue_ok s cells → Mutex.queue_mutex ∉ s.held →
      ∃ s2, get_all cells.length s = Outcome.returned (cells.map (fun c => some c.2)) s2 ∧
        queue_ok s2 [] ∧ same_rest s s2 := by
  induction cells with
  | nil =>
    intro s hq _
    exact ⟨s, rfl, hq, same_rest_refl s⟩
  | cons c cs ih =>
    intro s hq hm
    obtain ⟨s1, hg, hq1, hsame1, _⟩ := job_queue_get_cons s c.1 c.2 cs hq hm
    have hm1 : Mutex.queue_mutex ∉ s1.held := by rw [hsame1.1]; exact hm
    obtain ⟨s2, hg2, hq2, hsame2⟩ := ih s1 hq1 hm1
    refine ⟨s2, ?_, hq2, same_rest_trans _ _ _ hsame1 hsame2⟩
    simp only [List.length_cons, get_all, hg, hg2, List.map_cons]

theorem queue_ok_nil (s : State) (hq : queue_ok s []) :
    s.pool.job_queue = { front := none, back := none, len := 0 } := by
  obtain ⟨hch, hlen, hback⟩ := hq
  have hf : s.pool.job_queue.front = none := hch
  cases hqq : s.pool.job_queue with
  | mk f b l =>
    rw [hqq] at hf hlen hback
    simp only [List.length_nil, List.getLast?_nil, Option.map_none'] at hf hlen hback
    rw [hf, hlen, hback]

theorem job_queue_init_ok (s0 s : State) (v : Int)
    (hinit : job_queue_init s0 true = Outcome.returned v s) :
    v = 0 ∧ queue_ok s [] ∧ Mutex.queue_mutex ∉ s.held ∧ s.heap = s0.heap ∧
      s.trace = s0.trace := by
  simp only [job_queue_init, if_true, Outcome.returned.injEq] at hinit
  obtain ⟨hv, hs⟩ := hinit
  subst hs
  refine ⟨hv.symm, ?_, ?_, rfl, rfl⟩
  · refine ⟨?_, rfl, rfl⟩
    simp [pthread_mutex_init, set_queue, Chain]
  · simp [pthread_mutex_init, set_queue]

theorem many_succ (n : Nat) : many (n + 1) = many n ++ [(n, job0)] := by
  simp [many, List.range_succ]

theorem many_head (n : Nat) :
    many (n + 1) = (0, job0) :: (List.range n).map (fun a => (a + 1, job0)) := by
  simp [many, List.range_succ_eq_map, Function.comp_def]

theorem many_length (n : Nat) : (many n).length = n := by simp [many]

theorem many_fst (n : Nat) : (many n).map Prod.fst = List.range n := by
  simp [many, Function.comp_def]

theorem start_init : job_queue_init start true = Outcome.returned 0 start := rfl

theorem push_many (n : Nat) (hn : n ≤ UINT_MAX) :
    ∃ s, push_all start (many n) = Outcome.returned () s ∧ queue_ok s (many n) ∧
      same_rest start s ∧ (∀ x, n ≤ x → s.heap x = none) := by
  have hq0 : queue_ok start [] := (job_queue_init_ok start start 0 start_init).2.1
  obtain ⟨s, hp, hq, hsame, hheap⟩ := push_all_ok (many n) [] start hq0 (by simp [start])
    (by rw [List.nil_append, many_fst]; exact List.nodup_range n)
    (by rw [many_length]; simpa using hn)
  rw [List.nil_append] at hq hheap
  refine ⟨s, hp, hq, hsame, ?_⟩
  intro x hx
  rw [hheap x (by rw [many_fst, List.mem_range]; omega)]
  rfl

theorem push_many_overflow :
    ∃ s, push_all start (many (UINT_MAX + 1)) = Outcome.returned () s ∧
      s.pool.job_queue.len = 0 ∧ s.pool.job_queue.front = some 0 ∧
      Mutex.queue_mutex ∉ s.held := by
  obtain ⟨s1, hp1, hq1, hsame1, _⟩ := push_many UINT_MAX (Nat.le_refl _)
  have hm1 : Mutex.queue_mutex ∉ s1.held := by rw [hsame1.1]; simp [start]
  obtain ⟨s2, he, hch, _, hlen, hsame2, _⟩ := enqueue_spec s1 (many UINT_MAX) UINT_MAX job0 hq1
    (by rw [many_fst, List.mem_range]; omega) hm1
  refine ⟨s2, ?_, ?_, ?_, ?_⟩
  · rw [many_succ, push_all_append _ _ _ _ hp1]
    simp only [push_all, he]
  · rw [hlen, many_length, Nat.mod_self]
  · rw [← many_succ, many_head] at hch
    exact chain_head _ _ _ _ hch
  · rw [hsame2.1]; exact hm1

theorem get_all_succ (n : Nat) (s : State) :
    get_all (n + 1) s =
      match job_queue_get s true with
      | Outcome.returned v s1 =>
        match get_all n s1 with
        | Outcome.returned vs s2 => Outcome.returned (v :: vs) s2
        | o => o
      | Outcome.deadlock s1 => Outcome.deadlock s1
      | Outcome.undefined s1 => Outcome.undefined s1
      | Outcome.waiting s1 => Outcome.waiting s1
      | Outcome.timeout => Outcome.timeout := rfl


/-! ## Lemmas on `defer` -/

/-- While the admission mutex is a valid mutex that the caller does not hold, a
pool whose shutdown flag is 1 rejects every submission and is left unchanged. -/
theorem defer_rejected_live (s : State) (runnable : runnable_t) (malloc : Ptr)
    (hsd : s.pool.shutdown = 1) (hl : Mutex.pool_lock ∉ s.held) :
    defer s runnable malloc = Outcome.returned (-1) s := by
  unfold defer
  rw [lock_free _ _ hl]
  simp only [hsd, or_true, if_true]
  rw [unlock_head Mutex.pool_lock _ s.held rfl]

theorem queue_ok_fresh (s : State) (cells : List (Nat × runnable_t)) (a : Nat)
    (hq : queue_ok s cells) (hfresh : s.heap a = none) : a ∉ cells.map Prod.fst := by
  intro hmem
  obtain ⟨c, hc, hca⟩ := List.mem_map.mp hmem
  have := chain_mem_some _ _ _ hq.1 c hc
  rw [hca] at this
  exact this hfresh

theorem defer_spec (s : State) (cells : List (Nat × runnable_t)) (r : runnable_t) (a : Nat)
    (hq : queue_ok s cells) (hsd : s.pool.shutdown ≠ 1) (hthr : s.pool.threads ≠ none)
    (hfresh : s.heap a = none) (hl : Mutex.pool_lock ∉ s.held)
    (hm : Mutex.queue_mutex ∉ s.held) :
    ∃ s2, defer s r (some a) = Outcome.returned 0 s2 ∧
      Chain s2.heap s2.pool.job_queue.front (cells ++ [(a, r)]) ∧
      s2.pool.job_queue.back = some a ∧
      s2.pool.job_queue.len = (cells.length + 1) % (UINT_MAX + 1) ∧
      s2.held = s.held ∧ s2.trace = s.trace ++ [Event.broadcast] ∧
      s2.pool.threads = s.pool.threads ∧ s2.pool.pool_size = s.pool.pool_size ∧
      s2.pool.shutdown = s.pool.shutdown := by
  have hq1 : queue_ok { s with held := Mutex.pool_lock :: s.held } cells := hq
  have hm1 : Mutex.queue_mutex ∉ ({ s with held := Mutex.pool_lock :: s.held } : State).held := by
    simp only [List.mem_cons, not_or]
    exact ⟨by decide, hm⟩
  obtain ⟨s3, he, hch, hb, hlen, hsame, _⟩ :=
    enqueue_spec _ cells a r hq1 (queue_ok_fresh s cells a hq hfresh) hm1
  obtain ⟨h1, h2, h3, h4, h5⟩ := hsame
  unfold enqueue at he
  unfold defer
  rw [lock_free _ _ hl]
  simp only [hthr, hsd, or_self, if_false]
  rw [he]
  simp only
  rw [unlock_head Mutex.pool_lock s3 s.held h1]
  refine ⟨_, rfl, hch, hb, hlen, rfl, ?_, h3, h4, h5⟩
  simp only [emit, h2]

theorem full_chain (n : Nat) :
    ∀ (k i : Nat), i + k = n →
      Chain (fun a => if a < n then
          some { job := job0, next := if a + 1 < n then some (a + 1) else none }
        else none)
        (if k = 0 then none else some i) ((List.range' i k).map (fun a => (a, job0))) := by
  intro k
  induction k with
  | zero => intro i _; simp [Chain]
  | succ k ih =>
    intro i hik
    have hi : i < n := by omega
    rw [List.range'_succ, List.map_cons]
    refine ⟨by simp, by simp [hi], ?_⟩
    have := ih (i + 1) (by omega)
    simp only [hi, if_true, Option.bind]
    by_cases hk : k = 0
    · subst hk
      have hn : ¬ (i + 1 < n) := by omega
      simpa [hn] using this
    · have hn : i + 1 < n := by omega
      simpa [hn, hk] using this

theorem full_ok : queue_ok full (many UINT_MAX) := by
  have hpos : UINT_MAX ≠ 0 := by decide
  have hch := full_chain UINT_MAX UINT_MAX 0 (by omega)
  rw [if_neg hpos] at hch
  refine ⟨?_, ?_, ?_⟩
  · have hmany : many UINT_MAX = (List.range' 0 UINT_MAX).map (fun a => (a, job0)) := by
      unfold many
      rw [List.range_eq_range']
    rw [hmany]
    exact hch
  · rw [many_length]; rfl
  · obtain ⟨m, hm⟩ := Nat.exists_eq_succ_of_ne_zero hpos
    have hback : full.pool.job_queue.back = some m := by
      show some (UINT_MAX - 1) = some m
      rw [hm]; rfl
    rw [hback, hm, many_succ]
    simp


/-! ## Lemmas on `job_queue_destroy` -/

theorem lock_held (m : Mutex) (s : State) (hm : m ∈ s.held) : pthread_mutex_lock m s = none := by
  unfold pthread_mutex_lock
  rw [if_pos hm]

theorem job_queue_get_locked (s : State) (ok : Bool) (hm : Mutex.queue_mutex ∈ s.held) :
    job_queue_get s ok = Outcome.deadlock s := by
  unfold job_queue_get
  rw [lock_held _ _ hm]

theorem job_queue_destroy_loop_locked (fuel : Nat) (s : State) (mallocs : Nat → Bool)
    (hm : Mutex.queue_mutex ∈ s.held) :
    job_queue_destroy_loop (fuel + 1) s mallocs =
      if 0 < s.pool.job_queue.len then Outcome.deadlock s else Outcome.returned () s := by
  unfold job_queue_destroy_loop
  rw [job_queue_get_locked s _ hm]

theorem job_queue_destroy_nonempty (fuel : Nat) (s : State) (mallocs : Nat → Bool)
    (hm : Mutex.queue_mutex ∉ s.held) (hlen : 0 < s.pool.job_queue.len) :
    job_queue_destroy (fuel + 1) s mallocs =
      Outcome.deadlock { s with held := Mutex.queue_mutex :: s.held } := by
  unfold job_queue_destroy
  rw [lock_free _ _ hm]
  simp only
  rw [job_queue_destroy_loop_locked _ _ _ (List.mem_cons_self _ _)]
  simp only [hlen, if_true]

theorem job_queue_destroy_empty (fuel : Nat) (s : State) (mallocs : Nat → Bool)
    (hm : Mutex.queue_mutex ∉ s.held) (hlen : s.pool.job_queue.len = 0) :
    job_queue_destroy (fuel + 1) s mallocs =
      Outcome.returned () (set_queue s { front := none, back := none, len := 0 }) := by
  unfold job_queue_destroy
  rw [lock_free _ _ hm]
  simp only
  rw [job_queue_destroy_loop_locked _ _ _ (List.mem_cons_self _ _)]
  simp only [hlen, Nat.lt_irrefl, if_false]
  rw [unlock_head Mutex.queue_mutex _ s.held rfl]
  rfl

theorem job_queue_destroy_no_fuel (s : State) (mallocs : Nat → Bool) :
    ∀ s2, job_queue_destroy 0 s mallocs ≠ Outcome.returned () s2 := by
  intro s2 h
  unfold job_queue_destroy at h
  cases hl : pthread_mutex_lock Mutex.queue_mutex s with
  | none => rw [hl] at h; cases h
  | some s1 =>
    rw [hl] at h
    simp only [job_queue_destroy_loop] at h
    cases h

theorem job_queue_destroy_returned (fuel : Nat) (s s2 : State) (mallocs : Nat → Bool)
    (hm : Mutex.queue_mutex ∉ s.held)
    (hret : job_queue_destroy fuel s mallocs = Outcome.returned () s2) :
    s.pool.job_queue.len = 0 ∧ s2 = set_queue s { front := none, back := none, len := 0 } := by
  cases fuel with
  | zero => exact absurd hret (job_queue_destroy_no_fuel s mallocs s2)
  | succ n =>
    by_cases hlen : 0 < s.pool.job_queue.len
    · rw [job_queue_destroy_nonempty n s mallocs hm hlen] at hret
      cases hret
    · have h0 : s.pool.job_queue.len = 0 := by omega
      rw [job_queue_destroy_empty n s mallocs hm h0] at hret
      simp only [Outcome.returned.injEq, true_and] at hret
      exact ⟨h0, hret.symm⟩


/-! ## Lemmas on the worker -/

theorem run_body_break (s : State) (ok : Bool) (hw : Mutex.mutex ∉ s.held)
    (hc : s.pool.shutdown = 1 ∧ s.pool.job_queue.len = 0) :
    run_body s ok = Outcome.returned true { s with held := Mutex.mutex :: s.held } := by
  unfold run_body
  rw [lock_free _ _ hw]
  simp only [hc.1, hc.2, and_self, if_true]
  simp

theorem reachable_inv (s : State) (h : Reachable false s) :
    (∃ cells, queue_ok s cells) ∧ Mutex.queue_mutex ∉ s.held := by
  induction h with
  | init s0 s hinit =>
    obtain ⟨_, hq, hm, _, _⟩ := job_queue_init_ok s0 s 0 hinit
    exact ⟨⟨[], hq⟩, hm⟩
  | push s s2 a job _ hfresh hbound he ih =>
    obtain ⟨⟨cells, hq⟩, hm⟩ := ih
    have hlt : cells.length < UINT_MAX := by
      rcases hbound with hb | hb
      · cases hb
      · rw [← hq.2.1]; exact hb
    obtain ⟨s3, he3, hq3, hsame, _⟩ :=
      enqueue_ok s cells a job hq (queue_ok_fresh s cells a hq hfresh) hm hlt
    rw [he3] at he
    simp only [Outcome.returned.injEq, true_and] at he
    subst he
    exact ⟨⟨_, hq3⟩, by rw [hsame.1]; exact hm⟩
  | get s s2 ok v _ hg ih =>
    obtain ⟨⟨cells, hq⟩, hm⟩ := ih
    cases ok with
    | false =>
      rw [job_queue_get_nomem s hm] at hg
      simp only [Outcome.returned.injEq] at hg
      rw [← hg.2]
      exact ⟨⟨cells, hq⟩, hm⟩
    | true =>
      cases cells with
      | nil =>
        rw [job_queue_get_empty s true (by simpa using hq.2.1) hm] at hg
        simp only [Outcome.returned.injEq] at hg
        rw [← hg.2]
        exact ⟨⟨[], hq⟩, hm⟩
      | cons c rest =>
        obtain ⟨s3, hg3, hq3, hsame, _⟩ := job_queue_get_cons s c.1 c.2 rest hq hm
        rw [hg3] at hg
        simp only [Outcome.returned.injEq] at hg
        rw [← hg.2]
        exact ⟨⟨rest, hq3⟩, by rw [hsame.1]; exact hm⟩
  | destroy s s2 fuel mallocs _ hd ih =>
    obtain ⟨_, hm⟩ := ih
    obtain ⟨_, hs2⟩ := job_queue_destroy_returned fuel s s2 mallocs hm hd
    subst hs2
    refine ⟨⟨[], ?_, rfl, rfl⟩, hm⟩
    simp [set_queue, Chain]

theorem push_all_reachable (w : Bool) (new : List (Nat × runnable_t)) :
    ∀ (cells : List (Nat × runnable_t)) (s s2 : State), Reachable w s → queue_ok s cells →
      Mutex.queue_mutex ∉ s.held → (∀ c ∈ new, s.heap c.1 = none) →
      (new.map Prod.fst).Nodup → cells.length + new.length ≤ UINT_MAX →
      push_all s new = Outcome.returned () s2 → Reachable w s2 := by
  induction new with
  | nil =>
    intro cells s s2 hr _ _ _ _ _ hp
    simp only [push_all, Outcome.returned.injEq, true_and] at hp
    rw [← hp]; exact hr
  | cons c cs ih =>
    intro cells s s2 hr hq hm hfresh hnd hlen hp
    have hc : s.heap c.1 = none := hfresh c (List.mem_cons_self _ _)
    have hlt : cells.length < UINT_MAX := by
      simp only [List.length_cons] at hlen; omega
    obtain ⟨s1, he, hq1, hsame, hheap⟩ :=
      enqueue_ok s cells c.1 c.2 hq (queue_ok_fresh s cells c.1 hq hc) hm hlt
    have hr1 : Reachable w s1 :=
      Reachable.push s s1 c.1 c.2 hr hc (Or.inr (by rw [hq.2.1]; exact hlt)) he
    simp only [push_all, he] at hp
    rw [List.map_cons, List.nodup_cons] at hnd
    refine ih (cells ++ [(c.1, c.2)]) s1 s2 hr1 hq1 (by rw [hsame.1]; exact hm) ?_ hnd.2 ?_ hp
    · intro d hd
      have hdn : s.heap d.1 = none := hfresh d (List.mem_cons_of_mem _ hd)
      rw [hheap d.1 (queue_ok_fresh s cells d.1 hq hdn) ?_]
      · exact hdn
      · intro hEq
        apply hnd.1
        rw [← hEq]
        exact List.mem_map.mpr ⟨d, hd, rfl⟩
    · simp only [List.length_append, List.length_cons, List.length_nil] at hlen ⊢; omega

theorem reachable_overflow :
    ∃ s, Reachable true s ∧ s.pool.job_queue.len = 0 ∧ s.pool.job_queue.front = some 0 := by
  obtain ⟨s1, hp1, hq1, hsame1, hheap1⟩ := push_many UINT_MAX (Nat.le_refl _)
  have hm1 : Mutex.queue_mutex ∉ s1.held := by rw [hsame1.1]; simp [start]
  have hq0 : queue_ok start [] := (job_queue_init_ok start start 0 start_init).2.1
  have hr1 : Reachable true s1 :=
    push_all_reachable true (many UINT_MAX) [] start s1 (Reachable.init start start start_init)
      hq0 (by simp [start]) (fun _ _ => rfl)
      (by rw [many_fst]; exact List.nodup_range _)
      (by rw [many_length]; simp) hp1
  have hfresh : s1.heap UINT_MAX = none := hheap1 UINT_MAX (Nat.le_refl _)
  obtain ⟨s2, he, hch, _, hlen, _, _⟩ := enqueue_spec s1 (many UINT_MAX) UINT_MAX job0 hq1
    (queue_ok_fresh s1 _ _ hq1 hfresh) hm1
  refine ⟨s2, Reachable.push s1 s2 UINT_MAX job0 hr1 hfresh (Or.inl rfl) he, ?_, ?_⟩
  · rw [hlen, many_length, Nat.mod_self]
  · rw [← many_succ, many_head] at hch
    exact chain_head _ _ _ _ hch


/-! ## Lemmas on `thread_pool_init` and its unwinding -/

theorem run_exit (fuel : Nat) (s : State) (mallocs : Nat → Bool) (hw : Mutex.mutex ∉ s.held)
    (hsd : s.pool.shutdown = 1) (hlen : s.pool.job_queue.len = 0) :
    run (fuel + 1) s mallocs = Outcome.returned () s := by
  unfold run
  rw [run_body_break s _ hw ⟨hsd, hlen⟩]
  simp only
  rw [unlock_head Mutex.mutex _ s.held rfl]

theorem join_loop_unstarted (fuel : Nat) (mallocs : Nat → Bool) (k : Nat) :
    ∀ (m i : Nat) (s : State) (arr : List Bool), s.pool.threads = some arr →
      (∀ j, arr.getD j false = decide (j < k)) → s.pool.shutdown = 1 →
      s.pool.job_queue.len = 0 → i ≤ k → k < i + m →
      ∃ s2, join_loop (fuel + 1) mallocs m i s = Outcome.undefined s2 ∧
        s2.trace = s.trace ++ (List.range' i (k + 1 - i)).map Event.join ∧
        s2.pool = s.pool ∧ s2.held = s.held := by
  intro m
  induction m with
  | zero => intro i s arr _ _ _ _ hik hkm; omega
  | succ m ih =>
    intro i s arr harr hslots hsd hlen hik hkm
    unfold join_loop
    simp only [harr, hslots i, decide_eq_true_eq]
    by_cases hlt : i < k
    · simp only [hlt, if_true]
      have hrun : run (fuel + 1) { emit s (Event.join i) with held := [] } mallocs =
          Outcome.returned () { emit s (Event.join i) with held := [] } :=
        run_exit fuel _ mallocs (by simp) hsd hlen
      rw [hrun]
      simp only
      obtain ⟨s2, hj, htr, hpool, hheld⟩ :=
        ih (i + 1) (emit s (Event.join i)) arr harr hslots hsd hlen (by omega) (by omega)
      refine ⟨s2, hj, ?_, hpool, hheld⟩
      rw [htr]
      have hcount : k + 1 - i = (k + 1 - (i + 1)) + 1 := by omega
      rw [hcount, List.range'_succ]
      simp [emit]
    · simp only [hlt, if_false]
      have hEq : i = k := by omega
      subst hEq
      refine ⟨_, rfl, ?_, rfl, rfl⟩
      have hcount : i + 1 - i = 1 := by omega
      rw [hcount]
      simp [emit]

theorem thread_pool_destroy_unstarted (fuel : Nat) (mallocs : Nat → Bool) (k : Nat)
    (s : State) (arr : List Bool) (harr : s.pool.threads = some arr)
    (hslots : ∀ j, arr.getD j false = decide (j < k)) (hk : k < s.pool.pool_size)
    (hlen : s.pool.job_queue.len = 0) (hl : Mutex.pool_lock ∉ s.held) :
    ∃ s2, thread_pool_destroy (fuel + 1) s mallocs = Outcome.undefined s2 ∧
      s2.trace = s.trace ++ [Event.broadcast] ++ (List.range' 0 (k + 1)).map Event.join ∧
      s2.pool.threads = some arr := by
  unfold thread_pool_destroy
  rw [lock_free _ _ hl]
  simp only
  obtain ⟨s2, hj, htr, hpool, _⟩ := join_loop_unstarted fuel mallocs k s.pool.pool_size 0
    (emit { s with held := Mutex.pool_lock :: s.held,
                   pool := { s.pool with shutdown := 1 } } Event.broadcast)
    arr harr hslots rfl hlen (Nat.zero_le _) (by omega)
  have hj2 : join_loop (fuel + 1) mallocs
      (emit { s with held := Mutex.pool_lock :: s.held,
                     pool := { s.pool with shutdown := 1 } } Event.broadcast).pool.pool_size 0
      (emit { s with held := Mutex.pool_lock :: s.held,
                     pool := { s.pool with shutdown := 1 } } Event.broadcast) =
      Outcome.undefined s2 := hj
  rw [hj2]
  refine ⟨s2, rfl, ?_, ?_⟩
  · rw [htr]; simp [emit]
  · rw [hpool]; exact harr

theorem slots_set (arr : List Bool) (i : Nat) (hi : i < arr.length)
    (hslots : ∀ j, arr.getD j false = decide (j < i)) :
    ∀ j, (arr.set i true).getD j false = decide (j < i + 1) := by
  intro j
  have hj := hslots j
  simp only [List.getD_eq_getElem?_getD, List.getElem?_set] at hj ⊢
  by_cases hEq : i = j
  · subst hEq
    simp [hi]
  · simp only [hEq, if_false]
    rw [hj]
    have : (j < i + 1) = (j < i) := by
      apply propext
      constructor
      · intro h; omega
      · intro h; omega
    simp only [this]

theorem create_loop_fail (k n : Nat) (hk : k < n) :
    ∀ (m i : Nat) (s : State) (arr : List Bool), s.pool.threads = some arr →
      arr.length = n → (∀ j, arr.getD j false = decide (j < i)) →
      s.pool.pool_size = n → s.pool.job_queue.len = 0 → Mutex.pool_lock ∉ s.held →
      i + m = n → i ≤ k →
      ∃ s2 arr2, create_loop (env_fail_at k) m i s = Outcome.undefined s2 ∧
        s2.trace = s.trace ++ (List.range' i (k - i)).map Event.create ++
          [Event.broadcast] ++ (List.range' 0 (k + 1)).map Event.join ∧
        s2.pool.threads = some arr2 ∧ arr2.getD k false = false := by
  intro m
  induction m with
  | zero => intro i s arr _ _ _ _ _ _ him hik; omega
  | succ m ih =>
    intro i s arr harr hlenarr hslots hps hlen hl him hik
    unfold create_loop
    by_cases hlt : i < k
    · have hc : (env_fail_at k).create_ok i = true := by simp [env_fail_at, hlt]
      simp only [hc, if_true, harr, Option.getD_some]
      obtain ⟨s2, arr2, hcl, htr, hthr, hslot⟩ := ih (i + 1)
        (emit { s with pool := { s.pool with threads := some (arr.set i true) } }
          (Event.create i))
        (arr.set i true) rfl (by rw [List.length_set]; exact hlenarr)
        (slots_set arr i (by omega) hslots) hps hlen hl (by omega) (by omega)
      refine ⟨s2, arr2, hcl, ?_, hthr, hslot⟩
      rw [htr]
      have hcount : k - i = (k - (i + 1)) + 1 := by omega
      rw [hcount, List.range'_succ i (k - (i + 1))]
      simp [emit]
    · have hEq : i = k := by omega
      subst hEq
      have hc : (env_fail_at i).create_ok i = false := by simp [env_fail_at]
      simp only [hc, Bool.false_eq_true, if_false]
      obtain ⟨s2, hd, htr, hthr⟩ := thread_pool_destroy_unstarted 3 (fun _ => true) i s arr harr
        hslots (by omega) hlen hl
      have hd2 : thread_pool_destroy (env_fail_at i).fuel s (env_fail_at i).mallocs =
          Outcome.undefined s2 := hd
      rw [hd2]
      refine ⟨s2, arr, rfl, ?_, hthr, ?_⟩
      · rw [htr]; simp
      · rw [hslots i]; simp

theorem create_loop_ok :
    ∀ (m i : Nat) (s : State) (arr : List Bool), s.pool.threads = some arr →
      arr.length = i + m → (∀ j, arr.getD j false = decide (j < i)) →
      ∃ s2 arr2, create_loop env_ok m i s = Outcome.returned 0 s2 ∧
        s2.trace = s.trace ++ (List.range' i m).map Event.create ∧
        s2.pool.threads = some arr2 ∧ arr2.length = i + m ∧
        (∀ j, arr2.getD j false = decide (j < i + m)) ∧
        s2.pool.shutdown = s.pool.shutdown ∧ s2.pool.job_queue = s.pool.job_queue ∧
        s2.pool.pool_size = s.pool.pool_size ∧ s2.held = s.held ∧ s2.heap = s.heap := by
  intro m
  induction m with
  | zero =>
    intro i s arr harr hlenarr hslots
    exact ⟨s, arr, rfl, by simp, harr, hlenarr, hslots, rfl, rfl, rfl, rfl, rfl⟩
  | succ m ih =>
    intro i s arr harr hlenarr hslots
    unfold create_loop
    have hc : env_ok.create_ok i = true := rfl
    simp only [hc, if_true, harr, Option.getD_some]
    obtain ⟨s2, arr2, hcl, htr, hthr, hlen2, hslots2, h1, h2, h3, h4, h5⟩ := ih (i + 1)
      (emit { s with pool := { s.pool with threads := some (arr.set i true) } }
        (Event.create i))
      (arr.set i true) rfl (by rw [List.length_set]; omega)
      (slots_set arr i (by omega) hslots)
    refine ⟨s2, arr2, hcl, ?_, hthr, by omega, ?_, h1, h2, h3, h4, h5⟩
    · rw [htr, List.range'_succ]
      simp [emit]
    · intro j
      rw [hslots2 j]
      have : (j < i + 1 + m) = (j < i + (m + 1)) := by
        apply propext
        constructor
        · intro h; omega
        · intro h; omega
      simp only [this]

theorem slots_replicate (n : Nat) :
    ∀ j, (List.replicate n false).getD j false = decide (j < 0) := by
  intro j
  simp only [List.getD_eq_getElem?_getD, List.getElem?_replicate]
  by_cases h : j < n <;> simp [h]

theorem thread_pool_init_success (s0 : State) (n : Nat) :
    ∃ s arr, thread_pool_init s0 n env_ok = Outcome.returned 0 s ∧
      s.pool.shutdown = 0 ∧ s.pool.pool_size = n ∧
      s.pool.job_queue = { front := none, back := none, len := 0 } ∧
      s.pool.threads = some arr ∧ arr.length = n ∧
      (∀ j, arr.getD j false = decide (j < n)) ∧
      s.trace = s0.trace ++ (List.range' 0 n).map Event.create := by
  obtain ⟨s2, arr2, hcl, htr, hthr, hlen2, hslots2, h1, h2, h3, _, _⟩ := create_loop_ok n 0
    (pthread_mutex_init Mutex.pool_lock (pthread_mutex_init Mutex.mutex
      { pthread_mutex_init Mutex.queue_mutex
          (set_queue { s0 with pool := { s0.pool with pool_size := n, shutdown := 0 } }
            { front := none, back := none, len := 0 }) with
        pool := { (pthread_mutex_init Mutex.queue_mutex
          (set_queue { s0 with pool := { s0.pool with pool_size := n, shutdown := 0 } }
            { front := none, back := none, len := 0 })).pool with
          threads := some (List.replicate n false) } }))
    (List.replicate n false) rfl (by simp) (slots_replicate n)
  refine ⟨s2, arr2, ?_, h1, h3, h2, hthr, by omega, ?_, htr⟩
  · rw [← hcl]
    simp [thread_pool_init, job_queue_init, env_ok]
  · intro j
    rw [hslots2 j, Nat.zero_add]

theorem thread_pool_init_two_workers :
    ∃ s, thread_pool_init start 2 (env_fail_at 1) = Outcome.undefined s ∧
      s.pool.threads = some [true, false] ∧
      s.trace = [Event.create 0, Event.broadcast, Event.join 0, Event.join 1] :=
  ⟨_, rfl, rfl, rfl⟩

theorem zero_pool_destroy_deadlock :
    ∃ s1 s2 s3, thread_pool_init start 0 env_ok = Outcome.returned 0 s1 ∧
      defer s1 job1 (some 0) = Outcome.returned 0 s2 ∧
      thread_pool_destroy 4 s2 (fun _ => true) = Outcome.deadlock s3 ∧
      s3.pool.job_queue.len = 1 ∧ s3.held = [Mutex.queue_mutex, Mutex.pool_lock] :=
  ⟨_, _, _, rfl, rfl, rfl, rfl, rfl⟩

/-- A pool of one worker is created and shut down: `thread_pool_destroy` returns
with the shutdown flag set and with the admission mutex, the condition variable
and the wait mutex destroyed, in this order, as its last three calls. -/
theorem thread_pool_destroy_destroys_pool_lock :
    ∃ s1 s2, thread_pool_init start 1 env_ok = Outcome.returned 0 s1 ∧
      thread_pool_destroy 4 s1 (fun _ => true) = Outcome.returned () s2 ∧
      s2.pool.shutdown = 1 ∧
      s2.trace = [Event.create 0, Event.broadcast, Event.join 0, Event.free_threads,
        Event.destroy Mutex.pool_lock, Event.destroy_notify, Event.destroy Mutex.mutex] :=
  ⟨_, _, rfl, rfl, rfl, rfl⟩

/-! ## C1: FIFO order -/

/-- C1 (amended): from a freshly initialised queue, pushing at most `UINT_MAX`
jobs (in distinct nodes) and then calling `job_queue_get` as many times, every
allocation succeeding, returns copies of the jobs in the order pushed and leaves
the queue empty (`front` and `back` are `NULL`, `len` is 0). -/
theorem fifo_order_bounded (s0 s : State) (cells : List (Nat × runnable_t))
    (hinit : job_queue_init s0 true = Outcome.returned 0 s)
    (hnodup : (cells.map Prod.fst).Nodup) (hlen : cells.length ≤ UINT_MAX) :
    ∃ s1 s2, push_all s cells = Outcome.returned () s1 ∧
      get_all cells.length s1 = Outcome.returned (cells.map (fun c => some c.2)) s2 ∧
      s2.pool.job_queue = { front := none, back := none, len := 0 } := by
  obtain ⟨_, hq, hm, _, _⟩ := job_queue_init_ok s0 s 0 hinit
  obtain ⟨s1, hp, hq1, hsame1, _⟩ := push_all_ok cells [] s hq hm (by simpa using hnodup)
    (by simpa using hlen)
  have hm1 : Mutex.queue_mutex ∉ s1.held := by rw [hsame1.1]; exact hm
  rw [List.nil_append] at hq1
  obtain ⟨s2, hg, hq2, _⟩ := get_all_ok cells s1 hq1 hm1
  exact ⟨s1, s2, hp, hg, queue_ok_nil s2 hq2⟩

/-- C1 (witness): two jobs pushed on a fresh queue come back in order. -/
theorem fifo_order_bounded_witness :
    ∃ s1 s2, push_all start [(0, ⟨1, 10, 100⟩), (1, ⟨2, 20, 200⟩)] = Outcome.returned () s1 ∧
      get_all [((0 : Nat), (⟨1, 10, 100⟩ : runnable_t)), (1, ⟨2, 20, 200⟩)].length s1 =
        Outcome.returned
          ([((0 : Nat), (⟨1, 10, 100⟩ : runnable_t)), (1, ⟨2, 20, 200⟩)].map
            (fun c => some c.2)) s2 ∧
      s2.pool.job_queue = { front := none, back := none, len := 0 } :=
  fifo_order_bounded start start [(0, ⟨1, 10, 100⟩), (1, ⟨2, 20, 200⟩)] rfl (by decide)
    (by decide)

/-- C1 (counterexample): after `UINT_MAX + 1` pushes on a fresh queue `len` has
wrapped to 0, the first `job_queue_get` returns `NULL`, and so the `UINT_MAX + 1`
calls do not return the jobs pushed. -/
theorem fifo_order_overflow :
    job_queue_init start true = Outcome.returned 0 start ∧
    ((many (UINT_MAX + 1)).map Prod.fst).Nodup ∧
    ¬ ∃ s1 s2, push_all start (many (UINT_MAX + 1)) = Outcome.returned () s1 ∧
        get_all (many (UINT_MAX + 1)).length s1 =
          Outcome.returned ((many (UINT_MAX + 1)).map (fun c => some c.2)) s2 := by
  refine ⟨rfl, ?_, ?_⟩
  · rw [many_fst]; exact List.nodup_range _
  · rintro ⟨s1, s2, hp, hg⟩
    obtain ⟨s, hps, hlen, _, hm⟩ := push_many_overflow
    rw [hps] at hp
    simp only [Outcome.returned.injEq, true_and] at hp
    subst hp
    rw [many_length, many_head] at hg
    rw [get_all_succ, job_queue_get_empty s true hlen hm, List.map_cons] at hg
    simp only at hg
    cases hr : get_all UINT_MAX s with
    | returned vs s3 =>
      rw [hr] at hg
      simp only [Outcome.returned.injEq, List.cons.injEq] at hg
      exact absurd hg.1.1 (by simp)
    | deadlock s3 => rw [hr] at hg; cases hg
    | undefined s3 => rw [hr] at hg; cases hg
    | waiting s3 => rw [hr] at hg; cases hg
    | timeout => rw [hr] at hg; cases hg

/-! ## C3, C10: `defer` -/

/-- C3 (amended): in a pool with `shutdown == 0` and a worker array that is not
`NULL`, whose queue holds the nodes `cells` with fewer than `UINT_MAX` of them,
`defer` with a successful allocation returns 0; the queue then holds `cells`
followed by the new node with the runnable unmodified, `len` is one more, and
`shutdown`, `pool_size`, the worker array and the locks held are unchanged. -/
theorem defer_accepted (s : State) (cells : List (Nat × runnable_t)) (r : runnable_t)
    (a : Nat) (hq : queue_ok s cells) (hsd : s.pool.shutdown = 0)
    (hthr : s.pool.threads ≠ none) (hfresh : s.heap a = none)
    (hl : Mutex.pool_lock ∉ s.held) (hm : Mutex.queue_mutex ∉ s.held)
    (hlen : cells.length < UINT_MAX) :
    ∃ s2, defer s r (some a) = Outcome.returned 0 s2 ∧
      queue_ok s2 (cells ++ [(a, r)]) ∧
      s2.pool.job_queue.len = s.pool.job_queue.len + 1 ∧
      s2.pool.shutdown = s.pool.shutdown ∧ s2.pool.pool_size = s.pool.pool_size ∧
      s2.pool.threads = s.pool.threads ∧ s2.held = s.held := by
  have hsd1 : s.pool.shutdown ≠ 1 := by rw [hsd]; decide
  obtain ⟨s2, hd, hch, hb, hl2, hheld, _, hthr2, hps, hsd2⟩ :=
    defer_spec s cells r a hq hsd1 hthr hfresh hl hm
  have hlen2 : s2.pool.job_queue.len = cells.length + 1 := by
    rw [hl2]; exact Nat.mod_eq_of_lt (by omega)
  refine ⟨s2, hd, ⟨hch, ?_, ?_⟩, ?_, hsd2, hps, hthr2, hheld⟩
  · rw [hlen2, List.length_append, List.length_singleton]
  · rw [hb]; simp
  · rw [hlen2, hq.2.1]

/-- C3 (witness): `job0` is accepted behind the job queued in `one_job`. -/
theorem defer_accepted_witness :
    queue_ok one_job [(0, job1)] ∧ one_job.heap 1 = none ∧
      ∃ s2, defer one_job job0 (some 1) = Outcome.returned 0 s2 ∧
        queue_ok s2 ([(0, job1)] ++ [(1, job0)]) ∧
        s2.pool.job_queue.len = one_job.pool.job_queue.len + 1 ∧
        s2.pool.shutdown = one_job.pool.shutdown ∧
        s2.pool.pool_size = one_job.pool.pool_size ∧
        s2.pool.threads = one_job.pool.threads ∧ s2.held = one_job.held :=
  ⟨by decide, rfl,
    defer_accepted one_job [(0, job1)] job0 1 (by decide) rfl (by decide) rfl (by decide)
      (by decide) (by decide)⟩

/-- C3 (counterexample): in the pool `full`, whose queue holds `UINT_MAX` nodes,
`defer` with a successful allocation returns 0 and leaves `len` at 0, not at
`UINT_MAX + 1`. -/
theorem defer_accepted_overflow :
    queue_ok full (many UINT_MAX) ∧ full.pool.shutdown = 0 ∧ full.pool.threads ≠ none ∧
      full.heap UINT_MAX = none ∧ Mutex.pool_lock ∉ full.held ∧
      Mutex.queue_mutex ∉ full.held ∧
      ∃ s2, defer full job1 (some UINT_MAX) = Outcome.returned 0 s2 ∧
        s2.pool.job_queue.len = 0 ∧ s2.pool.job_queue.len ≠ full.pool.job_queue.len + 1 := by
  have hq := full_ok
  have hfresh : full.heap UINT_MAX = none := by simp [full]
  have hthr : full.pool.threads ≠ none := by simp [full]
  have hl : Mutex.pool_lock ∉ full.held := by simp [full]
  have hm : Mutex.queue_mutex ∉ full.held := by simp [full]
  obtain ⟨s2, hd, _, _, hlen, _⟩ :=
    defer_spec full (many UINT_MAX) job1 UINT_MAX hq (by simp [full]) hthr hfresh hl hm
  rw [many_length, Nat.mod_self] at hlen
  refine ⟨hq, rfl, hthr, hfresh, hl, hm, s2, hd, hlen, ?_⟩
  rw [hlen]
  exact (Nat.succ_ne_zero _).symm

/-- C10 (evaluation): in every running pool (`shutdown` is not 1, the worker
array is not `NULL`), when `malloc` returns `NULL` the call of `defer` locks the
admission mutex a second time instead of unlocking it: the call never returns
and the mutex stays held. -/
theorem defer_alloc_failure_deadlock (s : State) (runnable : runnable_t)
    (hthr : s.pool.threads ≠ none) (hsd : s.pool.shutdown ≠ 1)
    (hl : Mutex.pool_lock ∉ s.held) :
    defer s runnable none =
      Outcome.deadlock { s with held := Mutex.pool_lock :: s.held } := by
  unfold defer
  rw [lock_free _ _ hl]
  simp only [hthr, hsd, or_self, if_false]
  unfold pthread_mutex_lock
  simp

/-- C10 (witness): the running pool `ready` with a failing allocation. -/
theorem defer_alloc_failure_deadlock_witness :
    ready.pool.threads ≠ none ∧ ready.pool.shutdown ≠ 1 ∧ Mutex.pool_lock ∉ ready.held ∧
      defer ready job1 none =
        Outcome.deadlock { ready with held := Mutex.pool_lock :: ready.held } :=
  ⟨by decide, by decide, by decide,
    defer_alloc_failure_deadlock ready job1 (by decide) (by decide) (by decide)⟩

/-! ## C6, C7: `job_queue_get` and `job_queue_destroy` -/

/-- C7 (evaluation): on every queue with `len > 0`, `job_queue_destroy` locks the
queue mutex and then calls `job_queue_get`, which locks it again: the call never
returns and the queue is left as it was, not emptied, whatever the number of
iterations allowed and the results of the allocations. -/
theorem job_queue_destroy_self_deadlock (fuel : Nat) (s : State) (mallocs : Nat → Bool)
    (hm : Mutex.queue_mutex ∉ s.held) (hlen : 0 < s.pool.job_queue.len) :
    job_queue_destroy (fuel + 1) s mallocs =
      Outcome.deadlock { s with held := Mutex.queue_mutex :: s.held } := by
  have hget : job_queue_get { s with held := Mutex.queue_mutex :: s.held } (mallocs 0) =
      Outcome.deadlock { s with held := Mutex.queue_mutex :: s.held } := by
    unfold job_queue_get pthread_mutex_lock
    simp
  unfold job_queue_destroy
  rw [lock_free _ _ hm]
  simp only
  unfold job_queue_destroy_loop
  simp only [hlen, if_true]
  rw [hget]

/-- C7 (witness): the queue of `one_job`, which holds one job, is not drained. -/
theorem job_queue_destroy_self_deadlock_witness :
    Mutex.queue_mutex ∉ one_job.held ∧ 0 < one_job.pool.job_queue.len ∧
      job_queue_destroy 1 one_job (fun _ => true) =
        Outcome.deadlock { one_job with held := Mutex.queue_mutex :: one_job.held } :=
  ⟨by decide, by decide,
    job_queue_destroy_self_deadlock 0 one_job (fun _ => true) (by decide) (by decide)⟩

/-! ## C4: the worker loop -/

/-- C8 (evaluation): `thread_pool_init` for `n` workers when `pthread_create`
fails for worker `k < n` after workers `0`, ..., `k - 1` were created.  The
unwinding in `thread_pool_destroy` joins the slots `0`, ..., `k` of the array:
after the `k` workers that were started it calls `pthread_join` on slot `k`, in
which no thread identity was ever stored, and the call ends there, in undefined
behaviour, without returning -1. -/
theorem thread_pool_init_joins_unstarted (s0 : State) (n k : Nat) (hk : k < n) :
    ∃ s arr, thread_pool_init s0 n (env_fail_at k) = Outcome.undefined s ∧
      s.trace = s0.trace ++ (List.range' 0 k).map Event.create ++ [Event.broadcast] ++
        (List.range' 0 (k + 1)).map Event.join ∧
      s.pool.threads = some arr ∧ arr.getD k false = false := by
  obtain ⟨s2, arr2, hcl, htr, hthr, hslot⟩ := create_loop_fail k n hk n 0
    (pthread_mutex_init Mutex.pool_lock (pthread_mutex_init Mutex.mutex
      { pthread_mutex_init Mutex.queue_mutex
          (set_queue { s0 with pool := { s0.pool with pool_size := n, shutdown := 0 } }
            { front := none, back := none, len := 0 }) with
        pool := { (pthread_mutex_init Mutex.queue_mutex
          (set_queue { s0 with pool := { s0.pool with pool_size := n, shutdown := 0 } }
            { front := none, back := none, len := 0 })).pool with
          threads := some (List.replicate n false) } }))
    (List.replicate n false) rfl (by simp) (slots_replicate n) rfl rfl
    (by simp [pthread_mutex_init]) (by omega) (Nat.zero_le _)
  refine ⟨s2, arr2, ?_, htr, hthr, hslot⟩
  rw [← hcl]
  simp [thread_pool_init, job_queue_init, env_fail_at]

/-- C8 (witness): two workers, the second `pthread_create` failing: slots 0 and
1 are joined although only slot 0 holds a thread. -/
theorem thread_pool_init_joins_unstarted_witness :
    (1 : Nat) < 2 ∧
    ∃ s arr, thread_pool_init start 2 (env_fail_at 1) = Outcome.undefined s ∧
      s.trace = start.trace ++ (List.range' 0 1).map Event.create ++ [Event.broadcast] ++
        (List.range' 0 (1 + 1)).map Event.join ∧
      s.pool.threads = some arr ∧ arr.getD 1 false = false :=
  ⟨by decide, thread_pool_init_joins_unstarted start 2 1 (by decide)⟩

/-! ## C5: the length invariant of the queue -/

/-- C5 (amended): in every state reached from `job_queue_init` by calls of
`job_queue_push` (on freshly allocated nodes, none made while `len` is
`UINT_MAX`), `job_queue_get` and `job_queue_destroy`, `len` is the number of
nodes on the chain from `front`; `len` is 0 if and only if `front` is `NULL`, and
then `back` is `NULL`; and when `len` is positive `back` is the last node of the
chain. -/
theorem queue_length_invariant (s : State) (h : Reachable false s) :
    ∃ cells, Chain s.heap s.pool.job_queue.front cells ∧
      s.pool.job_queue.len = cells.length ∧
      (s.pool.job_queue.len = 0 ↔ s.pool.job_queue.front = none) ∧
      (s.pool.job_queue.len = 0 → s.pool.job_queue.back = none) ∧
      (0 < s.pool.job_queue.len →
        ∃ last, cells.getLast? = some last ∧ s.pool.job_queue.back = some last.1) := by
  obtain ⟨⟨cells, hch, hlen, hback⟩, _⟩ := reachable_inv s h
  refine ⟨cells, hch, hlen, ?_, ?_, ?_⟩
  · cases cells with
    | nil =>
      have hf : s.pool.job_queue.front = none := hch
      simp [hlen, hf]
    | cons c cs =>
      have hf := chain_head _ _ _ _ hch
      simp [hlen, hf]
  · intro h0
    rw [hlen] at h0
    rw [hback, List.length_eq_zero.mp h0]
    rfl
  · intro hpos
    rw [hlen] at hpos
    cases hl : cells.getLast? with
    | none =>
      rw [List.getLast?_eq_none_iff] at hl
      rw [hl] at hpos
      cases hpos
    | some last =>
      refine ⟨last, rfl, ?_⟩
      rw [hback, hl]
      rfl

/-- C5 (witness): the invariant in the state reached by one push. -/
theorem queue_length_invariant_witness :
    Reachable false pushed_once ∧
    ∃ cells, Chain pushed_once.heap pushed_once.pool.job_queue.front cells ∧
      pushed_once.pool.job_queue.len = cells.length ∧
      (pushed_once.pool.job_queue.len = 0 ↔ pushed_once.pool.job_queue.front = none) ∧
      (pushed_once.pool.job_queue.len = 0 → pushed_once.pool.job_queue.back = none) ∧
      (0 < pushed_once.pool.job_queue.len →
        ∃ last, cells.getLast? = some last ∧
          pushed_once.pool.job_queue.back = some last.1) :=
  ⟨Reachable.push start pushed_once 0 job1 (Reachable.init start start rfl) rfl
      (Or.inr (by decide)) rfl,
    queue_length_invariant pushed_once
      (Reachable.push start pushed_once 0 job1 (Reachable.init start start rfl) rfl
        (Or.inr (by decide)) rfl)⟩

/-- C5 (counterexample): without the bound on pushes the invariant fails: after
`UINT_MAX + 1` pushes on a fresh queue `len` is 0 while `front` is not `NULL`. -/
theorem queue_length_invariant_overflow :
    ¬ ∀ s, Reachable true s →
      ∃ cells, Chain s.heap s.pool.job_queue.front cells ∧
        s.pool.job_queue.len = cells.length ∧
        (s.pool.job_queue.len = 0 ↔ s.pool.job_queue.front = none) ∧
        (s.pool.job_queue.len = 0 → s.pool.job_queue.back = none) ∧
        (0 < s.pool.job_queue.len →
          ∃ last, cells.getLast? = some last ∧ s.pool.job_queue.back = some last.1) := by
  intro hall
  obtain ⟨s, hr, hlen, hfront⟩ := reachable_overflow
  obtain ⟨_, _, _, hiff, _⟩ := hall s hr
  have := hiff.mp hlen
  rw [hfront] at this
  cases this

end ThreadPool
